import Mathlib

/-!
Shallow embedding of `version.py` (davidongora/version-control).

The repository persists its state under `.gitclone/`: a `HEAD` file holding
`ref: refs/heads/<branch>`, one file per branch under `refs/heads/` whose
content is a commit digest or the empty string, an `index` JSON list of
`{path, hash}` entries, an `ignore` file, and an `objects/` directory keyed
by hex digest.  We model that directory tree as explicit association lists
keyed by `String`, and each operation of the `Repository` class as a state
transformer on this model.

The cryptographic digest `sha256(...).hexdigest()` is modelled as an
arbitrary function `H : String → String` passed to each operation that
hashes; the code applies the same primitive to file contents (line 103) and
to the commit message (line 140), so one parameter covers both.  Concrete
scenarios instantiate `H := id`.

File creation times (`os.path.getctime`) are modelled by a logical clock on
the state: every write into `objects/` stamps the entry with the current
clock and ticks it.  `os.time()` does not exist in Python's `os` module, so
the timestamp expression at line 145 raises `AttributeError` whenever the
probed object path is absent; that crash is modelled as the outcome
`CommitOutcome.timeCrash`, happening before any write.

Python signals most failures by printing a message and returning early;
each such early return is modelled as a distinguished outcome constructor
paired with the (unchanged) state.
-/

/-- One staged entry of the index: `{'path': file, 'hash': file_hash}`
(version.py lines 110-113). -/
structure IndexEntry where
  path : String
  hash : String
deriving DecidableEq

/-- A commit record as serialised into `objects/<digest>`
(version.py lines 143-148).  `parent` is the result of `_get_last_commit`:
`none` when the branch ref file was missing (`FileNotFoundError`), and the
stripped file content otherwise — the empty string for a fresh branch. -/
structure CommitData where
  message : String
  timestamp : Nat
  parent : Option String
  files : List IndexEntry
deriving DecidableEq

/-- An object stored under `objects/<digest>`: either raw blob bytes copied
by `add` (line 107) or a serialised commit record written by `commit`
(lines 151-152). -/
inductive Obj where
  | blob : String → Obj
  | commit : CommitData → Obj
deriving DecidableEq

/-- A stored object together with its file creation time (the logical clock
value at the write), read back by `os.path.getctime` at line 145. -/
structure StoredObj where
  obj : Obj
  ctime : Nat
deriving DecidableEq

/-- Association-list read: the content of the file named `k`, `none` when no
such file exists (`FileNotFoundError` on `open`). -/
def alGet {β : Type} : List (String × β) → String → Option β
  | [], _ => none
  | (k, v) :: t, n => if k = n then some v else alGet t n

/-- Association-list write: `open(path, 'w')` overwrites the file named `k`
if it exists and creates it otherwise. -/
def alPut {β : Type} : List (String × β) → String → β → List (String × β)
  | [], n, v => [(n, v)]
  | (k, w) :: t, n, v => if k = n then (n, v) :: t else (k, w) :: alPut t n v

/-- The file names present in a directory modelled as an association list. -/
def alKeys {β : Type} (l : List (String × β)) : List String :=
  l.map Prod.fst

/-- The contents of the `objects/` directory. -/
def Store := List (String × StoredObj)
deriving DecidableEq

/-- Read `objects/<digest>` (`none` = `FileNotFoundError`). -/
def storeGet (s : Store) (digest : String) : Option StoredObj :=
  alGet s digest

/-- Write `objects/<digest>`, stamping the given clock as creation time. -/
def storeWrite (s : Store) (digest : String) (o : Obj) (clock : Nat) : Store :=
  alPut s digest ⟨o, clock⟩

/-- Python `str.strip()`: drop whitespace from both ends. -/
def pyStrip (s : String) : String :=
  ⟨((s.data.dropWhile Char.isWhitespace).reverse.dropWhile Char.isWhitespace).reverse⟩

/-- `s.split('/')[-1]`: the segment after the last slash. -/
def lastSlashSegment : List Char → List Char → List Char
  | [], acc => acc.reverse
  | '/' :: rest, _ => lastSlashSegment rest []
  | c :: rest, acc => lastSlashSegment rest (c :: acc)

/-- `_get_current_branch` (lines 47-54): `HEAD` content, split on `'/'`,
last segment, stripped. -/
def parseCurrentBranch (headContent : String) : String :=
  pyStrip ⟨lastSlashSegment headContent.data []⟩

/-- The persisted portion of a repository: the files under `.gitclone/`. -/
structure PState where
  headRef : String
  refs : List (String × String)
  objects : Store
  index : List IndexEntry
  ignoreFile : List String
  clock : Nat
deriving DecidableEq

/-- Full repository handle: persisted state plus the in-memory
`self.current_branch` field set by `__init__`. -/
structure Repo extends PState where
  currentBranch : String
deriving DecidableEq

/-- `_initialize_repo` (lines 23-45): fresh `.gitclone` layout — `HEAD`
pointing at `main`, an empty `refs/heads/main` file, an empty index, and an
`ignore` file containing `.gitclone`. -/
def setupRepo : PState :=
  { headRef := "ref: refs/heads/main"
    refs := [("main", "")]
    objects := []
    index := []
    ignoreFile := [".gitclone"]
    clock := 0 }

/-- `Repository.__init__` (lines 9-21): create the layout only when the
repository directory is absent (`existing = none`), then read `HEAD` into
the in-memory current branch. -/
def repositoryOpen (existing : Option PState) : Repo :=
  match existing with
  | some p => { toPState := p, currentBranch := parseCurrentBranch p.headRef }
  | none => { toPState := setupRepo, currentBranch := parseCurrentBranch setupRepo.headRef }

/-- A freshly created repository. -/
def repo0 : Repo := repositoryOpen none

deriving instance DecidableEq for Except

/-- `_get_last_commit` (lines 165-177): read `refs/heads/<current branch>`
and strip it; `none` on `FileNotFoundError`. -/
def getLastCommit (r : Repo) : Option String :=
  (alGet r.refs r.currentBranch).map pyStrip

/-- `_get_branch_last_commit` (lines 273-286): same read for an explicitly
named branch. -/
def getBranchLastCommit (r : Repo) (name : String) : Option String :=
  (alGet r.refs name).map pyStrip

/-- Python truthiness test `not x` for an `Optional[str]`: `None` and the
empty string are both falsy. -/
def pyFalsy : Option String → Bool
  | none => true
  | some s => s == ""

/-- `Python s or ''` as used at line 213. -/
def orEmptyStr : Option String → String
  | none => ""
  | some s => s

/-- Lines 101-107 of `add`: hash the file content, then `shutil.copy` it to
`objects/<hash>` (unconditional copy; identical content always lands at the
same path, so the store never holds two objects for one digest). -/
def putObject (H : String → String) (objects : Store) (clock : Nat)
    (content : String) : String × Store :=
  let d := H content
  (d, storeWrite objects d (.blob content) clock)

/-- One iteration of the loop in `Repository.add` (lines 89-117): skip a
missing working-tree file, skip an ignored file, otherwise store the blob
and upsert the index entry (filter out any old entry for the path, append
the new one).  The ignore predicate is injected, following spec §1/§9 which
treat glob matching as an external collaborator. -/
def addOne (H : String → String) (ign : String → Bool)
    (tree : List (String × String)) (r : Repo) (file : String) : Repo :=
  match alGet tree file with
  | none => r
  | some content =>
    if ign file then r
    else
      let put := putObject H r.objects r.clock content
      let index := (r.index.filter (fun e => e.path != file)) ++ [⟨file, put.1⟩]
      { r with objects := put.2, index := index, clock := r.clock + 1 }

/-- `Repository.add` (lines 79-123): fold the per-file body over the batch;
the index is read once before the loop and written once after, which a left
fold reproduces. -/
def addOp (H : String → String) (ign : String → Bool)
    (tree : List (String × String)) (r : Repo) (files : List String) : Repo :=
  files.foldl (addOne H ign tree) r

/-- How a call to `Repository.commit` ends: a normal commit, the
"No changes to commit" early return (line 135-137), or the
`AttributeError` raised by the nonexistent `os.time()` at line 145 when no
object already sits at the probed commit path. -/
inductive CommitOutcome where
  | ok
  | emptyCommit
  | timeCrash
deriving DecidableEq

/-- `Repository.commit` (lines 125-163).  The digest is
`sha256(message.encode())` alone (line 140).  The timestamp reuses the
creation time of whatever object already occupies `objects/<digest>`; when
nothing does, `os.time()` raises before any write.  On success the commit
record (message, probed timestamp, `_get_last_commit()` parent, staged
files) is written over `objects/<digest>`, the current branch ref is set to
the digest, and the index is cleared. -/
def commitOp (H : String → String) (r : Repo) (message : String) :
    CommitOutcome × Repo :=
  if r.index.isEmpty then (.emptyCommit, r)
  else
    let commitHash := H message
    match storeGet r.objects commitHash with
    | none => (.timeCrash, r)
    | some so =>
      let cd : CommitData :=
        { message := message
          timestamp := so.ctime
          parent := getLastCommit r
          files := r.index }
      (.ok, { r with
        objects := storeWrite r.objects commitHash (.commit cd) r.clock
        refs := alPut r.refs r.currentBranch commitHash
        index := []
        clock := r.clock + 1 })

/-- `Repository.branch` (lines 202-215): read the current branch's last
commit and write it (or `''`) into `refs/heads/<branch_name>`,
unconditionally — there is no existence check and no failure path. -/
def branchOp (r : Repo) (name : String) : Repo :=
  { r with refs := alPut r.refs name (orEmptyStr (getLastCommit r)) }

/-- How `Repository.checkout` ends. -/
inductive CheckoutOutcome where
  | ok
  | missingBranch
deriving DecidableEq

/-- `Repository.checkout` (lines 217-234): refuse when the branch ref file
is absent; otherwise rewrite `HEAD` and the in-memory current branch. -/
def checkoutOp (r : Repo) (name : String) : CheckoutOutcome × Repo :=
  match alGet r.refs name with
  | none => (.missingBranch, r)
  | some _ =>
    (.ok, { r with headRef := "ref: refs/heads/" ++ name, currentBranch := name })

/-- One line block printed per commit by `log` (lines 192-196): digest,
message, timestamp and staged file paths. -/
structure LogEntry where
  digest : String
  message : String
  timestamp : Nat
  filePaths : List String
deriving DecidableEq

/-- Result of the `log` loop: `done` = the loop exited normally (falsy
current digest, or `FileNotFoundError` caught at line 199 and `break`),
`crashed` = an uncaught exception (the stored object is not a commit
record, so `json` parsing of it fails), `fuelOut` = the modelling fuel ran
out while the Python loop would still be running. -/
inductive LogRes where
  | done : List LogEntry → LogRes
  | crashed : List LogEntry → LogRes
  | fuelOut : List LogEntry → LogRes
deriving DecidableEq

/-- Prepend an already-printed entry to the eventual result of the rest of
the loop. -/
def LogRes.cons (e : LogEntry) : LogRes → LogRes
  | .done es => .done (e :: es)
  | .crashed es => .crashed (e :: es)
  | .fuelOut es => .fuelOut (e :: es)

/-- The entries printed before the loop ended, however it ended. -/
def LogRes.entries : LogRes → List LogEntry
  | .done es => es
  | .crashed es => es
  | .fuelOut es => es

/-- The `while current_commit:` loop of `Repository.log` (lines 183-200),
with explicit fuel since the Python loop has no bound.  The falsy test runs
before each iteration; a missing object file breaks the loop silently; the
parent field of the loaded record becomes the next digest. -/
def logWalk (objects : Store) : Nat → Option String → LogRes
  | _, none => .done []
  | 0, some c => if c = "" then .done [] else .fuelOut []
  | n + 1, some c =>
    if c = "" then .done []
    else
      match storeGet objects c with
      | none => .done []
      | some so =>
        match so.obj with
        | .blob _ => .crashed []
        | .commit cd =>
          LogRes.cons ⟨c, cd.message, cd.timestamp, cd.files.map (fun e => e.path)⟩
            (logWalk objects n cd.parent)

/-- `Repository.log` (lines 179-200): start the walk at
`_get_last_commit()`. -/
def logOp (r : Repo) (fuel : Nat) : LogRes :=
  logWalk r.objects fuel (getLastCommit r)

/-- The dict comprehension `{file['path']: file['hash'] for file in files}`
(lines 259-260): a later entry for the same path overwrites the earlier
one. -/
def dictOf (files : List IndexEntry) : List (String × String) :=
  files.foldl (fun m e => alPut m e.path e.hash) []

/-- The digest a commit's file snapshot records for path `p` (`none` when
the snapshot does not mention `p`). -/
def snapshotDigest (files : List IndexEntry) (p : String) : Option String :=
  alGet (dictOf files) p

/-- `set(list(keys1) + list(keys2))` (line 265): each key once.  Python's
set order is unspecified; this keeps the last occurrence. -/
def dedupKeys : List String → List String
  | [] => []
  | k :: t => if k ∈ t then dedupKeys t else k :: dedupKeys t

/-- Classification printed by `diff` (lines 266-271). -/
inductive DiffKind where
  | Added
  | Removed
  | Modified
deriving DecidableEq

/-- How a call to `Repository.diff` can fail: the "One or both branches
have no commits" early return (lines 246-248), an uncaught
`FileNotFoundError` opening `objects/<digest>` (lines 253-257), or an
uncaught parse failure because the object is not a commit record. -/
inductive DiffError where
  | NoCommits
  | ObjectMissing
  | NotACommit
deriving DecidableEq

/-- The classification loop of `diff` (lines 264-271): for each path in the
union of the two key sets, emit `Added` when absent from the first
snapshot, else `Removed` when absent from the second, else `Modified` when
the digests differ, else nothing. -/
def diffEntries (files1 files2 : List IndexEntry) : List (String × DiffKind) :=
  let m1 := dictOf files1
  let m2 := dictOf files2
  (dedupKeys (alKeys m1 ++ alKeys m2)).filterMap (fun p =>
    match alGet m1 p, alGet m2 p with
    | none, _ => some (p, DiffKind.Added)
    | some _, none => some (p, DiffKind.Removed)
    | some d1, some d2 => if d1 ≠ d2 then some (p, DiffKind.Modified) else none)

/-- `Repository.diff` (lines 236-271): resolve both branch tips with
`_get_branch_last_commit`; if either is falsy (`None` for a missing ref
file, `''` for a branch with no commits) return early; otherwise load both
commit objects and classify the union of their snapshots. -/
def diffOp (r : Repo) (b1 b2 : String) :
    Except DiffError (List (String × DiffKind)) :=
  let c1 := getBranchLastCommit r b1
  let c2 := getBranchLastCommit r b2
  if pyFalsy c1 || pyFalsy c2 then .error .NoCommits
  else
    match c1, c2 with
    | some d1, some d2 =>
      match storeGet r.objects d1, storeGet r.objects d2 with
      | some o1, some o2 =>
        match o1.obj, o2.obj with
        | .commit cdA, .commit cdB => .ok (diffEntries cdA.files cdB.files)
        | _, _ => .error .NotACommit
      | _, _ => .error .ObjectMissing
    | _, _ => .error .ObjectMissing

/-! ### Concrete scenario states

All scenarios instantiate the digest function with `id` (so the digest of
the string `"A"` is `"A"` itself) and the injected ignore predicate with a
literal match against the single pattern `.gitclone` written by
`_initialize_repo`. -/

/-- The ignore predicate corresponding to the initial `ignore` file: the
single pattern `.gitclone`, which `fnmatch` matches literally (it contains
no wildcards). -/
def defaultIgnore : String → Bool := fun p => p == ".gitclone"

/-- A working tree holding `f1` with content `"A"` and `f2` with
content `"Z"`. -/
def treeAZ : List (String × String) := [("f1", "A"), ("f2", "Z")]

/-- A working tree holding `f1 = "A"`, `f2 = "B"`, `f3 = "C"`. -/
def treeABC : List (String × String) := [("f1", "A"), ("f2", "B"), ("f3", "C")]

/-- Fresh repository with `f1` (content `"A"`) staged. -/
def rAddA : Repo := addOp id defaultIgnore treeAZ repo0 ["f1"]

/-- `rAddA` after `commit("A")`: branch `main` has one commit. -/
def rMainA : Repo := (commitOp id rAddA "A").2

/-- Fresh repository with both `f1` and `f2` staged. -/
def rAddAZ : Repo := addOp id defaultIgnore treeAZ repo0 ["f1", "f2"]

/-- Build for the history cycle: `add f1; commit "A"; add f2; commit "B";
add f3; commit "A"` on a fresh repository. -/
def rCyc1 : Repo := addOp id defaultIgnore treeABC repo0 ["f1"]

def rCyc2 : Repo := (commitOp id rCyc1 "A").2

def rCyc3 : Repo := addOp id defaultIgnore treeABC rCyc2 ["f2"]

def rCyc4 : Repo := (commitOp id rCyc3 "B").2

def rCyc5 : Repo := addOp id defaultIgnore treeABC rCyc4 ["f3"]

def rCyc6 : Repo := (commitOp id rCyc5 "A").2

/-- Fresh repository after `branch("dev")` (so `dev` has a ref entry with
no commits), then `add f1; commit "A"` on `main`. -/
def rBr1 : Repo := branchOp repo0 "dev"

def rBr2 : Repo := addOp id defaultIgnore treeAZ rBr1 ["f1"]

def rBr3 : Repo := (commitOp id rBr2 "A").2

/-- A hand-corrupted store for the broken-history walk: branch `main`
points at commit `C1` whose recorded parent digest `GONE` has no object. -/
def cdTip : CommitData := ⟨"tipmsg", 0, some "GONE", [⟨"f1", "A"⟩]⟩

def rBroken : Repo :=
  ⟨⟨"ref: refs/heads/main", [("main", "C1")], [("C1", ⟨Obj.commit cdTip, 0⟩)],
    [], [".gitclone"], 1⟩, "main"⟩

/-- A small snapshot pair for exercising the diff classification: `a` kept
identical, `b` only in the second snapshot, `c` modified. -/
def wf1 : List IndexEntry := [⟨"a", "1"⟩, ⟨"c", "3"⟩]

def wf2 : List IndexEntry := [⟨"a", "1"⟩, ⟨"b", "2"⟩, ⟨"c", "9"⟩]

theorem alGet_alPut_self {β : Type} (l : List (String × β)) (k : String) (v : β) :
    alGet (alPut l k v) k = some v := by
  induction l with
  | nil => simp [alPut, alGet]
  | cons h t ih =>
    obtain ⟨k', v'⟩ := h
    by_cases hk : k' = k
    · simp [alPut, alGet, hk]
    · simp [alPut, alGet, hk, ih]

theorem alGet_alPut_ne {β : Type} (l : List (String × β)) (k m : String) (v : β)
    (h : m ≠ k) : alGet (alPut l k v) m = alGet l m := by
  induction l with
  | nil => simp [alPut, alGet, Ne.symm h]
  | cons hd t ih =>
    obtain ⟨k', v'⟩ := hd
    by_cases hk : k' = k
    · subst hk
      simp [alPut, alGet, Ne.symm h]
    · by_cases hm : k' = m
      · simp [alPut, alGet, if_neg hk, hm, h]
      · simp [alPut, alGet, if_neg hk, hm, h, ih]

theorem alGet_some_mem_keys {β : Type} (l : List (String × β)) (k : String)
    (v : β) (h : alGet l k = some v) : k ∈ alKeys l := by
  induction l with
  | nil => simp [alGet] at h
  | cons hd t ih =>
    obtain ⟨k', v'⟩ := hd
    by_cases hk : k' = k
    · simp [alKeys, hk]
    · simp only [alGet, if_neg hk] at h
      simp only [alKeys, List.map_cons, List.mem_cons]
      exact Or.inr (ih h)

theorem alKeys_alPut_mem {β : Type} (l : List (String × β)) (k : String) (v : β)
    (h : k ∈ alKeys l) : alKeys (alPut l k v) = alKeys l := by
  induction l with
  | nil => simp [alKeys] at h
  | cons hd t ih =>
    obtain ⟨k', v'⟩ := hd
    by_cases hk : k' = k
    · simp [alPut, alKeys, hk]
    · simp only [alKeys, List.map_cons, List.mem_cons] at h
      have h1 : k ∈ alKeys t := by
        rcases h with h2 | h2
        · exact absurd h2.symm hk
        · exact h2
      have h3 := ih h1
      simp only [alKeys] at h3
      simp only [alPut, if_neg hk, alKeys, List.map_cons, h3]

theorem alGet_none_iff {β : Type} (l : List (String × β)) (k : String) :
    alGet l k = none ↔ k ∉ alKeys l := by
  induction l with
  | nil => simp [alGet, alKeys]
  | cons hd t ih =>
    obtain ⟨k', v'⟩ := hd
    by_cases hk : k' = k
    · subst hk
      simp [alGet, alKeys]
    · simp only [alGet, if_neg hk, alKeys, List.map_cons, List.mem_cons]
      rw [ih]
      constructor
      · intro hnt h2
        rcases h2 with h2 | h2
        · exact hk h2.symm
        · exact hnt h2
      · intro h2 h3
        exact h2 (Or.inr h3)

theorem mem_dedupKeys (l : List String) (p : String) :
    p ∈ dedupKeys l ↔ p ∈ l := by
  induction l with
  | nil => simp [dedupKeys]
  | cons k t ih =>
    simp only [dedupKeys]
    by_cases hk : k ∈ t
    · rw [if_pos hk, ih, List.mem_cons]
      constructor
      · exact Or.inr
      · rintro (h1 | h1)
        · exact h1 ▸ hk
        · exact h1
    · rw [if_neg hk, List.mem_cons, List.mem_cons, ih]

theorem mem_alKeys_iff_isSome {β : Type} (l : List (String × β)) (k : String) :
    k ∈ alKeys l ↔ (alGet l k).isSome = true := by
  constructor
  · intro h
    cases hg : alGet l k with
    | none => exact absurd h ((alGet_none_iff l k).mp hg)
    | some v => rfl
  · intro h
    cases hg : alGet l k with
    | none => rw [hg] at h; cases h
    | some v => exact alGet_some_mem_keys l k v hg

theorem mem_diffEntries (f1 f2 : List IndexEntry) (p : String) (k : DiffKind) :
    (p, k) ∈ diffEntries f1 f2 ↔
      (p ∈ alKeys (dictOf f1) ∨ p ∈ alKeys (dictOf f2)) ∧
      (match alGet (dictOf f1) p, alGet (dictOf f2) p with
        | none, _ => some (p, DiffKind.Added)
        | some _, none => some (p, DiffKind.Removed)
        | some d1, some d2 =>
          if d1 ≠ d2 then some (p, DiffKind.Modified) else none) = some (p, k) := by
  unfold diffEntries
  rw [List.mem_filterMap]
  constructor
  · rintro ⟨a, ha, hf⟩
    have hap : a = p := by
      cases h1 : alGet (dictOf f1) a with
      | none =>
        rw [h1] at hf
        exact (congrArg Prod.fst (Option.some.inj hf))
      | some d1 =>
        cases h2 : alGet (dictOf f2) a with
        | none =>
          rw [h1, h2] at hf
          exact (congrArg Prod.fst (Option.some.inj hf))
        | some d2 =>
          rw [h1, h2] at hf
          have hf2 : (if d1 ≠ d2 then some (a, DiffKind.Modified) else none)
              = some (p, k) := hf
          by_cases hd : d1 ≠ d2
          · rw [if_pos hd] at hf2
            exact (congrArg Prod.fst (Option.some.inj hf2))
          · rw [if_neg hd] at hf2
            cases hf2
    subst hap
    rw [mem_dedupKeys, List.mem_append] at ha
    exact ⟨ha, hf⟩
  · rintro ⟨ha, hf⟩
    exact ⟨p, (mem_dedupKeys _ p).mpr (List.mem_append.mpr ha), hf⟩

theorem logWalk_falsy (o : Store) (n : Nat) :
    logWalk o n (some "") = LogRes.done [] := by
  cases n <;> simp [logWalk]

theorem logWalk_commit_step (o : Store) (c : String) (cd : CommitData)
    (st n : Nat) (hcn : c ≠ "") (hc : storeGet o c = some ⟨Obj.commit cd, st⟩) :
    logWalk o (n + 1) (some c)
      = LogRes.cons ⟨c, cd.message, cd.timestamp, cd.files.map (fun e => e.path)⟩
          (logWalk o n cd.parent) := by
  simp [logWalk, hcn, hc]

theorem logWalk_cycle (o : Store) (a b : String) (ca cb : CommitData)
    (sa sb : Nat) (ha : storeGet o a = some ⟨Obj.commit ca, sa⟩)
    (hpa : ca.parent = some b) (hb : storeGet o b = some ⟨Obj.commit cb, sb⟩)
    (hpb : cb.parent = some a) (hna : a ≠ "") (hnb : b ≠ "") :
    ∀ n, (∃ es, logWalk o n (some a) = LogRes.fuelOut es ∧ es.length = n) ∧
         (∃ es, logWalk o n (some b) = LogRes.fuelOut es ∧ es.length = n) := by
  intro n
  induction n with
  | zero =>
    exact ⟨⟨[], by simp [logWalk, hna], rfl⟩, ⟨[], by simp [logWalk, hnb], rfl⟩⟩
  | succ n ih =>
    constructor
    · obtain ⟨es, he, hl⟩ := ih.2
      refine ⟨⟨a, ca.message, ca.timestamp, ca.files.map (fun e => e.path)⟩ :: es, ?_, by simp [hl]⟩
      rw [logWalk_commit_step o a ca sa n hna ha, hpa, he]
      rfl
    · obtain ⟨es, he, hl⟩ := ih.1
      refine ⟨⟨b, cb.message, cb.timestamp, cb.files.map (fun e => e.path)⟩ :: es, ?_, by simp [hl]⟩
      rw [logWalk_commit_step o b cb sb n hnb hb, hpb, he]
      rfl

/-- C6: the object store is content-addressed — reading back the object
stored by `put` (lines 101-107 of `add`) under the digest it returned
yields exactly the stored content, putting identical content twice returns
the same digest both times, and the second put does not duplicate the
stored object (the set of occupied digests is unchanged). -/
theorem object_store_put_get_roundtrip (H : String → String) (objects : Store)
    (clk clk2 : Nat) (b : String) :
    (storeGet (putObject H objects clk b).2 (putObject H objects clk b).1).map
        StoredObj.obj = some (Obj.blob b) ∧
    (putObject H (putObject H objects clk b).2 clk2 b).1
      = (putObject H objects clk b).1 ∧
    alKeys (putObject H (putObject H objects clk b).2 clk2 b).2
      = alKeys (putObject H objects clk b).2 := by
  refine ⟨?_, rfl, ?_⟩
  · show (alGet (alPut objects (H b) ⟨Obj.blob b, clk⟩) (H b)).map StoredObj.obj = _
    rw [alGet_alPut_self]
    rfl
  · show alKeys (alPut (alPut objects (H b) ⟨Obj.blob b, clk⟩) (H b) ⟨Obj.blob b, clk2⟩)
        = alKeys (alPut objects (H b) ⟨Obj.blob b, clk⟩)
    exact alKeys_alPut_mem _ _ _
      (alGet_some_mem_keys _ _ _ (alGet_alPut_self objects (H b) ⟨Obj.blob b, clk⟩))

/-- C7: for every pair of loaded snapshots and every path, the diff
classification loop reports `Added` exactly for paths only in the second
snapshot, `Removed` exactly for paths only in the first, `Modified`
exactly for paths in both with differing digests, and emits nothing for
paths in both with equal digests. -/
theorem diff_classifies_union_paths (f1 f2 : List IndexEntry) (p : String) :
    ((p, DiffKind.Added) ∈ diffEntries f1 f2 ↔
      snapshotDigest f1 p = none ∧ (snapshotDigest f2 p).isSome = true) ∧
    ((p, DiffKind.Removed) ∈ diffEntries f1 f2 ↔
      (snapshotDigest f1 p).isSome = true ∧ snapshotDigest f2 p = none) ∧
    ((p, DiffKind.Modified) ∈ diffEntries f1 f2 ↔
      ∃ d1 d2, snapshotDigest f1 p = some d1 ∧ snapshotDigest f2 p = some d2 ∧
        d1 ≠ d2) ∧
    ((∃ d, snapshotDigest f1 p = some d ∧ snapshotDigest f2 p = some d) →
      ∀ k, (p, k) ∉ diffEntries f1 f2) := by
  have hk1 := mem_alKeys_iff_isSome (dictOf f1) p
  have hk2 := mem_alKeys_iff_isSome (dictOf f2) p
  cases h1 : alGet (dictOf f1) p with
  | none =>
    cases h2 : alGet (dictOf f2) p with
    | none =>
      refine ⟨?_, ?_, ?_, ?_⟩
      · rw [mem_diffEntries]
        simp [snapshotDigest, h1, h2, hk1, hk2]
      · rw [mem_diffEntries]
        simp [snapshotDigest, h1, h2, hk1, hk2]
      · rw [mem_diffEntries]
        simp [snapshotDigest, h1, h2, hk1, hk2]
      · rintro ⟨d, hd, -⟩
        rw [snapshotDigest, h1] at hd
        cases hd
    | some d2 =>
      refine ⟨?_, ?_, ?_, ?_⟩
      · rw [mem_diffEntries]
        simp [snapshotDigest, h1, h2, hk1, hk2]
      · rw [mem_diffEntries]
        simp [snapshotDigest, h1, h2, hk1, hk2]
      · rw [mem_diffEntries]
        simp [snapshotDigest, h1, h2, hk1, hk2]
      · rintro ⟨d, hd, -⟩
        rw [snapshotDigest, h1] at hd
        cases hd
  | some d1 =>
    cases h2 : alGet (dictOf f2) p with
    | none =>
      refine ⟨?_, ?_, ?_, ?_⟩
      · rw [mem_diffEntries]
        simp [snapshotDigest, h1, h2, hk1, hk2]
      · rw [mem_diffEntries]
        simp [snapshotDigest, h1, h2, hk1, hk2]
      · rw [mem_diffEntries]
        simp [snapshotDigest, h1, h2, hk1, hk2]
      · rintro ⟨d, -, hd⟩
        rw [snapshotDigest, h2] at hd
        cases hd
    | some d2 =>
      by_cases hd : d1 = d2
      · subst hd
        refine ⟨?_, ?_, ?_, ?_⟩
        · rw [mem_diffEntries]
          simp [snapshotDigest, h1, h2, hk1, hk2]
        · rw [mem_diffEntries]
          simp [snapshotDigest, h1, h2, hk1, hk2]
        · rw [mem_diffEntries]
          simp [snapshotDigest, h1, h2, hk1, hk2]
        · intro _ k
          rw [mem_diffEntries]
          simp [h1, h2]
      · refine ⟨?_, ?_, ?_, ?_⟩
        · rw [mem_diffEntries]
          simp [snapshotDigest, h1, h2, hk1, hk2, hd]
        · rw [mem_diffEntries]
          simp [snapshotDigest, h1, h2, hk1, hk2, hd]
        · rw [mem_diffEntries]
          simp [snapshotDigest, h1, h2, hk1, hk2, hd]
        · rintro ⟨d, hda, hdb⟩
          rw [snapshotDigest, h1] at hda
          rw [snapshotDigest, h2] at hdb
          exact absurd ((Option.some.inj hda).trans (Option.some.inj hdb).symm) hd

/-- C7 witness: at the concrete snapshot pair `wf1`/`wf2` the path `a`
(present in both with equal digests) produces no entry. -/
theorem diff_classifies_union_paths_witness :
    ("a", DiffKind.Added) ∉ diffEntries wf1 wf2 :=
  (diff_classifies_union_paths wf1 wf2 "a").2.2.2 ⟨"1", by decide, by decide⟩
    DiffKind.Added

/-- C8: calling `commit` while the index is empty takes the
"No changes to commit" early return before anything is written — the
outcome is the empty-commit failure and the repository state (branch refs,
objects, index, everything) is returned exactly unchanged. -/
theorem commit_empty_index_no_mutation (H : String → String) (r : Repo)
    (m : String) (h : r.index = []) :
    commitOp H r m = (CommitOutcome.emptyCommit, r) := by
  simp [commitOp, h]

/-- C8 witness: commit on a fresh repository (whose index is empty). -/
theorem commit_empty_index_no_mutation_witness :
    commitOp id repo0 "msg" = (CommitOutcome.emptyCommit, repo0) :=
  commit_empty_index_no_mutation id repo0 "msg" (by decide)

/-- C10: opening a repository whose `.gitclone` directory already exists
leaves every piece of persisted state (HEAD, branch refs, objects, index,
ignore file) exactly as found, and only derives the in-memory current
branch by parsing the HEAD content. -/
theorem open_existing_repo_reads_only (p : PState) :
    (repositoryOpen (some p)).toPState = p ∧
    (repositoryOpen (some p)).currentBranch = parseCurrentBranch p.headRef :=
  ⟨rfl, rfl⟩

/-- C1 (code bug, spec section 9 flags it): the commit digest is computed
from the message alone (line 140), not over the full serialised content.
Two commits built from the same working tree with the same message `"A"`
but different staged snapshots both succeed, advance the branch to the
same digest, and store structurally different commit records that collide
at one address — the second would overwrite the first. -/
theorem commit_digest_ignores_snapshot :
    (commitOp id rAddA "A").1 = CommitOutcome.ok ∧
    (commitOp id rAddAZ "A").1 = CommitOutcome.ok ∧
    rAddA.index ≠ rAddAZ.index ∧
    getLastCommit (commitOp id rAddA "A").2
      = getLastCommit (commitOp id rAddAZ "A").2 ∧
    (storeGet (commitOp id rAddA "A").2.objects "A").map StoredObj.obj
      ≠ (storeGet (commitOp id rAddAZ "A").2.objects "A").map StoredObj.obj := by
  decide

/-- C2 (code bug, a consequence of the digest defect): the sequence
`add f1; commit "A"; add f2; commit "B"; add f3; commit "A"` (all commits
succeed) makes the second `"A"` commit reuse the first one's digest with
parent `"B"`, so the stored history contains a two-cycle.  The log walk
from the branch tip then visits the digest `"A"` twice within three steps
and, for every amount of fuel `n`, is still running after `n` steps — it
neither terminates nor avoids revisiting digests. -/
theorem log_walk_cycle_nontermination :
    (commitOp id rCyc1 "A").1 = CommitOutcome.ok ∧
    (commitOp id rCyc3 "B").1 = CommitOutcome.ok ∧
    (commitOp id rCyc5 "A").1 = CommitOutcome.ok ∧
    getLastCommit rCyc6 = some "A" ∧
    ((logWalk rCyc6.objects 3 (getLastCommit rCyc6)).entries.map
      (fun e => e.digest) = ["A", "B", "A"]) ∧
    ¬ ((logWalk rCyc6.objects 3 (getLastCommit rCyc6)).entries.map
      (fun e => e.digest)).Nodup ∧
    (∀ n, ∃ es, logWalk rCyc6.objects n (some "A") = LogRes.fuelOut es ∧
      es.length = n) := by
  refine ⟨by decide, by decide, by decide, by decide, by decide, by decide, ?_⟩
  intro n
  exact (logWalk_cycle rCyc6.objects "A" "B"
    ⟨"A", 1, some "B", [⟨"f3", "C"⟩]⟩ ⟨"B", 2, some "A", [⟨"f2", "B"⟩]⟩ 5 3
    (by decide) (by decide) (by decide) (by decide) (by decide) (by decide) n).1

/-- C3 counterexample: in `rBr3` the branch `dev` already has a ref entry
(tip `""`) and `main` sits at commit `"A"`; calling `branch("dev")` does
not fail — it silently overwrites the existing tip of `dev` with `"A"`. -/
theorem branch_exists_no_error_overwrites :
    alGet rBr3.refs "dev" = some "" ∧
    getLastCommit rBr3 = some "A" ∧
    alGet (branchOp rBr3 "dev").refs "dev" = some "A" := by
  decide

/-- C3 amended: `branch(name)` never fails; for any repository state it
unconditionally writes the current branch's tip (the empty string when
there is none) into `name`'s ref entry — creating it when fresh and
overwriting it when it exists — while every other ref and all other state
components are left unchanged. -/
theorem branch_unconditional_overwrite (r : Repo) (name m : String)
    (hm : m ≠ name) :
    alGet (branchOp r name).refs name = some (orEmptyStr (getLastCommit r)) ∧
    alGet (branchOp r name).refs m = alGet r.refs m ∧
    (branchOp r name).objects = r.objects ∧
    (branchOp r name).index = r.index ∧
    (branchOp r name).headRef = r.headRef ∧
    (branchOp r name).currentBranch = r.currentBranch :=
  ⟨alGet_alPut_self r.refs name (orEmptyStr (getLastCommit r)),
   alGet_alPut_ne r.refs name m (orEmptyStr (getLastCommit r)) hm,
   rfl, rfl, rfl, rfl⟩

/-- C3 amended, witness at the concrete state `rBr3`. -/
theorem branch_unconditional_overwrite_witness :
    alGet (branchOp rBr3 "dev").refs "dev"
      = some (orEmptyStr (getLastCommit rBr3)) ∧
    alGet (branchOp rBr3 "dev").refs "main" = alGet rBr3.refs "main" :=
  ⟨(branch_unconditional_overwrite rBr3 "dev" "main" (by decide)).1,
   (branch_unconditional_overwrite rBr3 "dev" "main" (by decide)).2.1⟩

/-- C4 counterexample: in `rBroken` the tip commit `C1` records parent
digest `GONE`, which has no object in the store; `log` does not fail — the
`FileNotFoundError` is caught and the loop breaks, returning the entries
visited so far (`C1` alone) as a normal result. -/
theorem log_missing_parent_silent_truncation :
    cdTip.parent = some "GONE" ∧
    storeGet rBroken.objects "GONE" = none ∧
    logWalk rBroken.objects 10 (getLastCommit rBroken)
      = LogRes.done [⟨"C1", "tipmsg", 0, ["f1"]⟩] := by
  decide

/-- C4 amended: whenever the walk reaches a commit whose recorded parent
digest resolves to no stored object, it stops there and returns the
entries visited so far as a normal (`done`) result, indistinguishable from
a walk that reached the root — no error is surfaced. -/
theorem log_stops_at_missing_parent (o : Store) (c p : String)
    (cd : CommitData) (st n : Nat)
    (hc : storeGet o c = some ⟨Obj.commit cd, st⟩) (hp : cd.parent = some p)
    (hpn : p ≠ "") (hmiss : storeGet o p = none) (hcn : c ≠ "") :
    logWalk o (n + 2) (some c)
      = LogRes.done [⟨c, cd.message, cd.timestamp,
          cd.files.map (fun e => e.path)⟩] := by
  rw [logWalk_commit_step o c cd st (n + 1) hcn hc, hp]
  simp [logWalk, hpn, hmiss, LogRes.cons]

/-- C4 amended, witness at the concrete corrupted state `rBroken`. -/
theorem log_stops_at_missing_parent_witness :
    logWalk rBroken.objects 9 (some "C1")
      = LogRes.done [⟨"C1", cdTip.message, cdTip.timestamp,
          cdTip.files.map (fun e => e.path)⟩] :=
  log_stops_at_missing_parent rBroken.objects "C1" "GONE" cdTip 0 7
    (by decide) (by decide) (by decide) (by decide) (by decide)

/-- C5 counterexample: tip resolution uses `None` for a missing branch and
the empty string for an existing branch with no commits — the opposite of
the claim — and `diff` against a nonexistent branch name reports the
no-commits condition instead of an unknown-branch error, even though the
other branch has a commit. -/
theorem tip_sentinel_and_nocommits_confusion :
    alGet repo0.refs "main" = some "" ∧
    getBranchLastCommit repo0 "main" = some "" ∧
    alGet repo0.refs "ghost" = none ∧
    getBranchLastCommit repo0 "ghost" = none ∧
    getBranchLastCommit rMainA "main" = some "A" ∧
    alGet rMainA.refs "ghost" = none ∧
    diffOp rMainA "main" "ghost" = Except.error DiffError.NoCommits := by
  decide

/-- C5 amended: resolving a branch tip yields `none` when the ref entry is
missing and `some ""` when the entry exists but holds no commit, and
`diff` fails with the no-commits condition exactly when either branch
resolves to a falsy value (missing ref or empty tip alike). -/
theorem tip_resolution_and_diff_nocommits (r : Repo) (name b1 b2 : String) :
    (alGet r.refs name = none → getBranchLastCommit r name = none) ∧
    (alGet r.refs name = some "" → getBranchLastCommit r name = some "") ∧
    (diffOp r b1 b2 = Except.error DiffError.NoCommits ↔
      (pyFalsy (getBranchLastCommit r b1)
        || pyFalsy (getBranchLastCommit r b2)) = true) := by
  refine ⟨?_, ?_, ?_⟩
  · intro h
    rw [getBranchLastCommit, h]
    rfl
  · intro h
    rw [getBranchLastCommit, h]
    decide
  · by_cases hcond : (pyFalsy (getBranchLastCommit r b1)
        || pyFalsy (getBranchLastCommit r b2)) = true
    · simp only [hcond, iff_true]
      rw [diffOp]
      simp [hcond]
    · simp only [hcond, iff_false]
      rw [diffOp]
      simp only [hcond, Bool.false_eq_true, if_false]
      cases h1 : getBranchLastCommit r b1 with
      | none => exact absurd (by simp [h1, pyFalsy]) hcond
      | some d1 =>
        cases h2 : getBranchLastCommit r b2 with
        | none => exact absurd (by simp [h1, h2, pyFalsy]) hcond
        | some d2 =>
          cases h3 : storeGet r.objects d1 with
          | none => simp [h3]
          | some o1 =>
            cases h4 : storeGet r.objects d2 with
            | none => simp [h3, h4]
            | some o2 =>
              cases ho1 : o1.obj <;> cases ho2 : o2.obj <;>
                simp [h3, h4, ho1, ho2]

/-- C5 amended, witness at the concrete state `rMainA` and the missing
branch name `ghost`. -/
theorem tip_resolution_and_diff_nocommits_witness :
    getBranchLastCommit rMainA "ghost" = none ∧
    (diffOp rMainA "main" "ghost" = Except.error DiffError.NoCommits ↔
      (pyFalsy (getBranchLastCommit rMainA "main")
        || pyFalsy (getBranchLastCommit rMainA "ghost")) = true) :=
  ⟨(tip_resolution_and_diff_nocommits rMainA "ghost" "main" "ghost").1
    (by decide),
   (tip_resolution_and_diff_nocommits rMainA "ghost" "main" "ghost").2.2⟩

/-- C9: on a branch whose ref file exists with empty content, a succeeding
commit records its parent field as the empty string (not the missing-file
`none`), and the log walk, after printing that commit, treats the
empty-string parent as falsy and ends the history cleanly. -/
theorem first_commit_parent_empty_string (H : String → String) (r r' : Repo)
    (m : String) (h1 : alGet r.refs r.currentBranch = some "")
    (h2 : commitOp H r m = (CommitOutcome.ok, r')) (h3 : H m ≠ "") :
    ∃ cd ts, storeGet r'.objects (H m) = some ⟨Obj.commit cd, ts⟩ ∧
      cd.parent = some "" ∧
      ∀ n, logWalk r'.objects (n + 1) (some (H m))
        = LogRes.done [⟨H m, cd.message, cd.timestamp,
            cd.files.map (fun e => e.path)⟩] := by
  have hparent : getLastCommit r = some "" := by
    rw [getLastCommit, h1]
    decide
  simp only [commitOp] at h2
  split at h2
  · simp at h2
  · split at h2
    · simp at h2
    · rename_i so hso
      have hr : ({ r with
          objects := storeWrite r.objects (H m)
            (.commit ⟨m, so.ctime, getLastCommit r, r.index⟩) r.clock
          refs := alPut r.refs r.currentBranch (H m)
          index := []
          clock := r.clock + 1 } : Repo) = r' := by
        have := congrArg Prod.snd h2
        exact this
      refine ⟨⟨m, so.ctime, getLastCommit r, r.index⟩, r.clock, ?_, hparent, ?_⟩
      · rw [← hr]
        exact alGet_alPut_self r.objects (H m) _
      · intro n
        rw [← hr]
        have hget : storeGet (storeWrite r.objects (H m)
            (.commit ⟨m, so.ctime, getLastCommit r, r.index⟩) r.clock) (H m)
            = some ⟨Obj.commit ⟨m, so.ctime, getLastCommit r, r.index⟩, r.clock⟩ :=
          alGet_alPut_self r.objects (H m) _
        rw [logWalk_commit_step _ (H m) _ r.clock n h3 hget]
        show LogRes.cons _ (logWalk _ n (getLastCommit r)) = _
        rw [hparent, logWalk_falsy]
        rfl

/-- C9 witness: the first commit on `main` of a fresh repository (its ref
file exists and is empty); the commit succeeds because the staged blob
`"A"` already occupies the probed object path. -/
theorem first_commit_parent_empty_string_witness :
    ∃ cd ts, storeGet rMainA.objects "A" = some ⟨Obj.commit cd, ts⟩ ∧
      cd.parent = some "" ∧
      ∀ n, logWalk rMainA.objects (n + 1) (some "A")
        = LogRes.done [⟨"A", cd.message, cd.timestamp,
            cd.files.map (fun e => e.path)⟩] :=
  first_commit_parent_empty_string id rAddA rMainA "A" (by decide) (by decide)
    (by decide)
